import Mathlib

/-!
Verification of the multi-country, multi-sector Armington trade-model solver
(`src/model/equilibrium.py`, `src/model/data.py`, `src/model/optimize.py`).

Arrays indexed by countries and sectors are embedded as functions on `Fin N`
and `Fin S`; NumPy floating point arithmetic is idealized as exact real
arithmetic, and `np.power` on real exponents is `Real.rpow`.  Division by
zero follows Lean's convention `x / 0 = 0`; wherever the Python code guards a
division (the `np.where` in `_price_index`) the guard is embedded explicitly.
Iteration budgets (`max_iter`) are explicit fuel arguments of structurally
recursive loops.
-/

namespace TradeModel

noncomputable section

open Real Finset

/-- Model parameters (`ModelData` in `src/model/data.py`): calibrated arrays
describing the economy.  `beta` is stored, as in the Python dataclass, where
the loader fills it with `1 - alpha.sum(axis=2)`. -/
structure ModelData (N S : ℕ) where
  a : Fin N → Fin S → ℝ
  L : Fin N → ℝ
  D : Fin N → ℝ
  alpha : Fin N → Fin S → Fin S → ℝ
  beta : Fin N → Fin S → ℝ
  z : Fin N → Fin S → ℝ
  sigma : Fin S → ℝ
  gamma : Fin N → Fin N → Fin S → ℝ
  tariff : Fin N → Fin N → Fin S → ℝ
  iceberg : Fin N → Fin N → Fin S → ℝ

variable {N S : ℕ}

/-! ### CES price and trade-share engine (`_unit_costs`, `_price_index`) -/

/-- Log-space unit cost, from `_unit_costs`:
`log_c = -log z + beta * log w + Σ_k alpha[i,s,k] * log p[i,k]`, exponentiated. -/
def unit_costs (d : ModelData N S) (wages : Fin N → ℝ) (prices : Fin N → Fin S → ℝ)
    (i : Fin N) (s : Fin S) : ℝ :=
  Real.exp (-Real.log (d.z i s) + d.beta i s * Real.log (wages i) +
    ∑ k, d.alpha i s k * Real.log (prices i k))

/-- Delivered cost in `_price_index`: `delivered = costs[None,:,:] * iceberg * tariff`,
i.e. `delivered[i,j,s] = costs[j,s] * iceberg[i,j,s] * tariff[i,j,s]`. -/
def delivered (costs : Fin N → Fin S → ℝ) (tariff iceberg : Fin N → Fin N → Fin S → ℝ)
    (i j : Fin N) (s : Fin S) : ℝ :=
  costs j s * iceberg i j s * tariff i j s

/-- The CES numerator `term = gamma * delivered ** (1 - sigma)` in `_price_index`. -/
def ces_term (d : ModelData N S) (costs : Fin N → Fin S → ℝ)
    (tariff iceberg : Fin N → Fin N → Fin S → ℝ) (i j : Fin N) (s : Fin S) : ℝ :=
  d.gamma i j s * delivered costs tariff iceberg i j s ^ (1 - d.sigma s)

/-- The CES denominator `denom = term.sum(axis=1)` in `_price_index`. -/
def ces_denom (d : ModelData N S) (costs : Fin N → Fin S → ℝ)
    (tariff iceberg : Fin N → Fin N → Fin S → ℝ) (i : Fin N) (s : Fin S) : ℝ :=
  ∑ j, ces_term d costs tariff iceberg i j s

/-- The CES price index `prices = denom ** (1 / (1 - sigma))` in `_price_index`. -/
def ces_prices (d : ModelData N S) (costs : Fin N → Fin S → ℝ)
    (tariff iceberg : Fin N → Fin N → Fin S → ℝ) (i : Fin N) (s : Fin S) : ℝ :=
  ces_denom d costs tariff iceberg i s ^ (1 / (1 - d.sigma s))

/-- The guarded shares `trade_shares = np.where(denom > 0, term / denom, 0.0)` in `_price_index`. -/
def trade_shares (d : ModelData N S) (costs : Fin N → Fin S → ℝ)
    (tariff iceberg : Fin N → Fin N → Fin S → ℝ) (i j : Fin N) (s : Fin S) : ℝ :=
  if 0 < ces_denom d costs tariff iceberg i s then
    ces_term d costs tariff iceberg i j s / ces_denom d costs tariff iceberg i s
  else 0

/-! ### Income-revenue fixed point (`_solve_income_and_revenue`) -/

/-- The iterate of the inner fixed point: household income and sector revenues. -/
structure IncRev (N S : ℕ) where
  income : Fin N → ℝ
  revenues : Fin N → Fin S → ℝ

/-- Final consumption expenditure `exp_final = a * income[:, None]`. -/
def exp_final (d : ModelData N S) (st : IncRev N S) (i : Fin N) (s : Fin S) : ℝ :=
  d.a i s * st.income i

/-- Intermediate input expenditure `exp_intermediate = einsum("isk,is->ik", alpha, revenues)`. -/
def exp_intermediate (d : ModelData N S) (st : IncRev N S) (i : Fin N) (k : Fin S) : ℝ :=
  ∑ s, d.alpha i s k * st.revenues i s

/-- Total expenditure `total_exp = exp_final + exp_intermediate`. -/
def total_exp (d : ModelData N S) (st : IncRev N S) (i : Fin N) (s : Fin S) : ℝ :=
  exp_final d st i s + exp_intermediate d st i s

/-- Bilateral expenditure `flows = trade_shares * total_exp[:, None, :]`. -/
def flows (d : ModelData N S) (shares : Fin N → Fin N → Fin S → ℝ) (st : IncRev N S)
    (i j : Fin N) (s : Fin S) : ℝ :=
  shares i j s * total_exp d st i s

/-- Tariff collections `tariff_rev = np.sum((tariff - 1)/tariff * flows, axis=(1,2))`. -/
def tariff_rev (d : ModelData N S) (shares : Fin N → Fin N → Fin S → ℝ)
    (tariff : Fin N → Fin N → Fin S → ℝ) (st : IncRev N S) (i : Fin N) : ℝ :=
  ∑ j, ∑ s, ((tariff i j s - 1) / tariff i j s) * flows d shares st i j s

/-- One un-damped application of the circular-flow map:
`income_new = wages * L + tariff_rev + D` and
`revenues_new = np.sum(flows / (iceberg * tariff), axis=0)`.  The `axis=0`
sum runs over the *importer* index of `flows[i,j,s]`, so
`revenues_new[j,s] = Σ_i flows[i,j,s] / (iceberg[i,j,s] * tariff[i,j,s])`:
the producer revenue of exporter `j`, net of transport and tariff markups. -/
def inner_step (d : ModelData N S) (shares tariff iceberg : Fin N → Fin N → Fin S → ℝ)
    (wages : Fin N → ℝ) (st : IncRev N S) : IncRev N S where
  income := fun i => wages i * d.L i + tariff_rev d shares tariff st i + d.D i
  revenues := fun j s => ∑ i, flows d shares st i j s / (iceberg i j s * tariff i j s)

/-- The 50/50 relaxation `0.5 * old + 0.5 * new` applied to both components. -/
def inner_blend (st stNew : IncRev N S) : IncRev N S where
  income := fun i => 0.5 * st.income i + 0.5 * stNew.income i
  revenues := fun i s => 0.5 * st.revenues i s + 0.5 * stNew.revenues i s

/-- The maximum (`np.max`) of a nonempty vector. -/
def vecMax [NeZero N] (f : Fin N → ℝ) : ℝ :=
  Finset.univ.sup' (Finset.univ_nonempty_iff.mpr ⟨⟨0, Nat.pos_of_ne_zero (NeZero.ne N)⟩⟩) f

/-- The maximum (`np.max`) of a nonempty matrix. -/
def matMax [NeZero N] [NeZero S] (f : Fin N → Fin S → ℝ) : ℝ :=
  vecMax fun i => vecMax fun s => f i s

/-- The inner convergence measure
`max(max |inc'-inc|/(|inc|+1e-12), max |rev'-rev|/(|rev|+1e-12))`. -/
def inner_max_diff [NeZero N] [NeZero S] (st stNew : IncRev N S) : ℝ :=
  max (vecMax fun i => |stNew.income i - st.income i| / (|st.income i| + 1e-12))
    (matMax fun i s => |stNew.revenues i s - st.revenues i s| / (|st.revenues i s| + 1e-12))

/-- The inner loop `_solve_income_and_revenue`, with the iteration budget as explicit fuel.
Each round computes the un-damped update and the tariff revenue from the
current iterate, replaces the iterate by the 50/50 blend, and exits the loop
with the *un-damped* values when the measure computed before blending is
below `tol`.  On exhausted fuel the blended iterate is returned together with
the tariff revenue of the last executed round (threaded as the third
argument; a call with fuel `0` would be a `NameError` on `tariff_rev` in the
Python source and never occurs from `solve_equilibrium`, whose budget is 500). -/
def solve_income_and_revenue [NeZero N] [NeZero S] (d : ModelData N S)
    (shares tariff iceberg : Fin N → Fin N → Fin S → ℝ) (wages : Fin N → ℝ)
    (tol : ℝ) : ℕ → IncRev N S → (Fin N → ℝ) → IncRev N S × (Fin N → ℝ)
  | 0, st, trevLast => (st, trevLast)
  | fuel + 1, st, _ =>
    let stNew := inner_step d shares tariff iceberg wages st
    let trev := tariff_rev d shares tariff st
    if inner_max_diff st stNew < tol then (stNew, trev)
    else solve_income_and_revenue d shares tariff iceberg wages tol fuel
      (inner_blend st stNew) trev

/-- The map actually iterated by the inner loop while not converged. -/
def inner_iterate (d : ModelData N S) (shares tariff iceberg : Fin N → Fin N → Fin S → ℝ)
    (wages : Fin N → ℝ) (st : IncRev N S) : IncRev N S :=
  inner_blend st (inner_step d shares tariff iceberg wages st)

/-! ### Outer equilibrium solver (`solve_equilibrium`) -/

/-- The mutable state of the outer loop body: the wage and price guesses, the
income/revenue iterate passed to the inner loop, and the trade shares and
tariff revenue computed in the last executed round (needed for the returned
`EquilibriumResult`; their initial values stand for Python variables that
would be unbound before the first round). -/
structure OuterState (N S : ℕ) where
  wages : Fin N → ℝ
  prices : Fin N → Fin S → ℝ
  income : Fin N → ℝ
  revenues : Fin N → Fin S → ℝ
  shares : Fin N → Fin N → Fin S → ℝ
  trev : Fin N → ℝ

/-- The inner fixed point as invoked by `solve_equilibrium`: trade shares
from the current guess, default budget 500 and tolerance `1e-9`. -/
def inner_result [NeZero N] [NeZero S] (d : ModelData N S)
    (tariff iceberg : Fin N → Fin N → Fin S → ℝ) (st : OuterState N S) :
    IncRev N S × (Fin N → ℝ) :=
  solve_income_and_revenue d
    (trade_shares d (unit_costs d st.wages st.prices) tariff iceberg)
    tariff iceberg st.wages 1e-9 500 ⟨st.income, st.revenues⟩ st.trev

/-- The wage update before normalization:
`wages * (labor_demand / L) ** damp` with
`labor_demand = np.sum(beta * revenues, axis=1) / wages`. -/
def pre_norm_wage [NeZero N] [NeZero S] (d : ModelData N S)
    (tariff iceberg : Fin N → Fin N → Fin S → ℝ) (damp : ℝ) (st : OuterState N S)
    (i : Fin N) : ℝ :=
  st.wages i *
    ((((∑ s, d.beta i s * (inner_result d tariff iceberg st).1.revenues i s) / st.wages i) /
      d.L i) ^ damp)

/-- The numeraire normalization `wages_new = wages_new / wages_new[0]`. -/
def wages_update [NeZero N] [NeZero S] (d : ModelData N S)
    (tariff iceberg : Fin N → Fin N → Fin S → ℝ) (damp : ℝ) (st : OuterState N S)
    (i : Fin N) : ℝ :=
  pre_norm_wage d tariff iceberg damp st i / pre_norm_wage d tariff iceberg damp st 0

/-- The outer convergence measure exactly as computed in the source:
`max(max |wages_new - wages|/(|wages|+1e-12), max |new_prices - prices_prev|/(|prices_prev|+1e-12))`.
Note that the price component compares the freshly computed (un-damped) CES
prices with the previous prices, not the damped price iterate. -/
def outer_max_diff [NeZero N] [NeZero S] (d : ModelData N S)
    (tariff iceberg : Fin N → Fin N → Fin S → ℝ) (damp : ℝ) (st : OuterState N S) : ℝ :=
  max (vecMax fun i =>
      |wages_update d tariff iceberg damp st i - st.wages i| / (|st.wages i| + 1e-12))
    (matMax fun i s =>
      |ces_prices d (unit_costs d st.wages st.prices) tariff iceberg i s - st.prices i s| /
        (|st.prices i s| + 1e-12))

/-- One round of the outer loop body: CES prices and shares from the current
guess, the inner income-revenue solve, the damped wage update with numeraire
normalization, and the damped price blend
`prices = (1-damp)*prices + damp*new_prices`. -/
def outer_round [NeZero N] [NeZero S] (d : ModelData N S)
    (tariff iceberg : Fin N → Fin N → Fin S → ℝ) (damp : ℝ) (st : OuterState N S) :
    OuterState N S :=
  { wages := wages_update d tariff iceberg damp st
    prices := fun i s => (1 - damp) * st.prices i s +
      damp * ces_prices d (unit_costs d st.wages st.prices) tariff iceberg i s
    income := (inner_result d tariff iceberg st).1.income
    revenues := (inner_result d tariff iceberg st).1.revenues
    shares := trade_shares d (unit_costs d st.wages st.prices) tariff iceberg
    trev := (inner_result d tariff iceberg st).2 }

/-- The outer loop with explicit fuel.  Besides the final state it returns
the number of executed rounds and whether the loop left through the `break`
(convergence) exit; the Python function itself exposes neither, which is the
content of C4.  The `break` test uses the measure of the round just executed. -/
def solve_equilibrium_loop [NeZero N] [NeZero S] (d : ModelData N S)
    (tariff iceberg : Fin N → Fin N → Fin S → ℝ) (damp tol : ℝ) :
    ℕ → OuterState N S → OuterState N S × ℕ × Bool
  | 0, st => (st, 0, false)
  | fuel + 1, st =>
    let st' := outer_round d tariff iceberg damp st
    if outer_max_diff d tariff iceberg damp st < tol then (st', 1, true)
    else
      let rest := solve_equilibrium_loop d tariff iceberg damp tol fuel st'
      (rest.1, rest.2.1 + 1, rest.2.2)

/-- Initial guess in `solve_equilibrium`: unit wages and prices,
`income = wages * L + D`, unit revenues. -/
def init_state (d : ModelData N S) : OuterState N S :=
  { wages := fun _ => 1
    prices := fun _ _ => 1
    income := fun i => 1 * d.L i + d.D i
    revenues := fun _ _ => 1
    shares := fun _ _ _ => 0
    trev := fun _ => 0 }

/-- Real income from `_real_income`: income deflated by the Cobb-Douglas price index
`exp(Σ_s a[i,s] * log prices[i,s])`. -/
def real_income (d : ModelData N S) (income : Fin N → ℝ) (prices : Fin N → Fin S → ℝ)
    (i : Fin N) : ℝ :=
  income i / Real.exp (∑ s, d.a i s * Real.log (prices i s))

/-- The solver's output record (`EquilibriumResult` dataclass). -/
structure EquilibriumResult (N S : ℕ) where
  wages : Fin N → ℝ
  prices : Fin N → Fin S → ℝ
  trade_shares : Fin N → Fin N → Fin S → ℝ
  revenues : Fin N → Fin S → ℝ
  income : Fin N → ℝ
  tariff_revenue : Fin N → ℝ
  real_income : Fin N → ℝ

/-- The solver `solve_equilibrium`: run the outer loop from the initial guess and
assemble the result from the final state. -/
def solve_equilibrium [NeZero N] [NeZero S] (d : ModelData N S)
    (tariff iceberg : Fin N → Fin N → Fin S → ℝ) (maxIter : ℕ) (tol damp : ℝ) :
    EquilibriumResult N S :=
  let final := (solve_equilibrium_loop d tariff iceberg damp tol maxIter (init_state d)).1
  { wages := final.wages
    prices := final.prices
    trade_shares := final.shares
    revenues := final.revenues
    income := final.income
    tariff_revenue := final.trev
    real_income := real_income d final.income final.prices }

/-- Percent change in real income between two equilibria (`welfare_change`). -/
def welfare_change (base new : EquilibriumResult N S) (i : Fin N) : ℝ :=
  (new.real_income i / base.real_income i - 1) * 100

/-- Formalization of the spec's wording for the outer convergence test (C5):
the maximum componentwise relative change across wages and prices **between
consecutive iterates**, i.e. against the state the loop actually carries to
the next round (for prices, the damped blend).  Compare `outer_max_diff`,
which is what the source computes. -/
def spec_consecutive_change [NeZero N] [NeZero S] (d : ModelData N S)
    (tariff iceberg : Fin N → Fin N → Fin S → ℝ) (damp : ℝ) (st : OuterState N S) : ℝ :=
  max (vecMax fun i =>
      |(outer_round d tariff iceberg damp st).wages i - st.wages i| / (|st.wages i| + 1e-12))
    (matMax fun i s =>
      |(outer_round d tariff iceberg damp st).prices i s - st.prices i s| /
        (|st.prices i s| + 1e-12))

/-! ### Load-time validation (`load_inputs`, `ModelData.validate`) -/

/-- The implied labor share `beta = 1.0 - alpha.sum(axis=2)` as computed in `load_inputs`. -/
def implied_beta (alpha : Fin N → Fin S → Fin S → ℝ) (i : Fin N) (s : Fin S) : ℝ :=
  1 - ∑ k, alpha i s k

/-- The complete value-level validation performed at load time.  `load_inputs`
raises only when `np.any(beta < -1e-8)`; `ModelData.validate` asserts array
shapes, which the typed embedding enforces by construction.  The elasticities
`sigma` are read but never inspected by any check, hence the unused argument. -/
def load_inputs_accepts (alpha : Fin N → Fin S → Fin S → ℝ) (sigma : Fin S → ℝ) : Prop :=
  ∀ i : Fin N, ∀ s : Fin S, ¬ implied_beta alpha i s < -(1e-8)

/-! ### Concrete model instances used by witnesses and counterexamples -/

/-- Concrete two-country, one-sector data with `sigma = 2` and all unit
costs/tariffs/icebergs/weights equal to 1: the CES denominator is `2 > 0`. -/
def dPos : ModelData 2 1 :=
  ⟨fun _ _ => 1, fun _ => 1, fun _ => 0, fun _ _ _ => 0, fun _ _ => 1,
   fun _ _ => 1, fun _ => 2, fun _ _ _ => 1, fun _ _ _ => 1, fun _ _ _ => 1⟩

/-- Same data but with Armington weights `gamma = 0`: the CES denominator is 0. -/
def dZero : ModelData 2 1 :=
  ⟨fun _ _ => 1, fun _ => 1, fun _ => 0, fun _ _ _ => 0, fun _ _ => 1,
   fun _ _ => 1, fun _ => 2, fun _ _ _ => 0, fun _ _ _ => 1, fun _ _ _ => 1⟩

/-- One-country, one-sector economy with unit endowments, free trade
(`tariff = iceberg = 1`), no intermediates (`alpha = 0`, `beta = 1`),
`sigma = 2`, balanced trade. -/
def dOne : ModelData 1 1 :=
  ⟨fun _ _ => 1, fun _ => 1, fun _ => 0, fun _ _ _ => 0, fun _ _ => 1,
   fun _ _ => 1, fun _ => 2, fun _ _ _ => 1, fun _ _ _ => 1, fun _ _ _ => 1⟩

/-- The same economy with Armington weight `gamma = (1 + 2e-8)⁻¹`, so that
the CES price computed from the unit initial guess is `1 + 2e-8`: large
enough that the source's convergence measure stays at `2e-8 ≥ tol`, while
the damped price iterate moves only by `6e-9 < tol`. -/
def dPert : ModelData 1 1 :=
  ⟨fun _ _ => 1, fun _ => 1, fun _ => 0, fun _ _ _ => 0, fun _ _ => 1,
   fun _ _ => 1, fun _ => 2, fun _ _ _ => (1 + 2 / 10 ^ 8)⁻¹, fun _ _ _ => 1,
   fun _ _ _ => 1⟩

/-- The economy `dOne` with `sigma = 1`: the degenerate elasticity the spec says must be
rejected at load time. -/
def dSigmaOne : ModelData 1 1 :=
  ⟨fun _ _ => 1, fun _ => 1, fun _ => 0, fun _ _ _ => 0, fun _ _ => 1,
   fun _ _ => 1, fun _ => 1, fun _ _ _ => 1, fun _ _ _ => 1, fun _ _ _ => 1⟩

/-- Input-output shares summing to `1 + 1e-9`, giving the slightly negative
implied labor share `-1e-9`. -/
def alphaNeg : Fin 1 → Fin 1 → Fin 1 → ℝ :=
  fun _ _ _ => 1 + 1e-9

/-- A concrete equilibrium state with unit real income everywhere. -/
def eqOne : EquilibriumResult 1 1 :=
  ⟨fun _ => 1, fun _ _ => 1, fun _ _ _ => 1, fun _ _ => 1, fun _ => 1, fun _ => 0,
   fun _ => 1⟩

/-- Asymmetric trade shares on two countries: every importer sources only
from exporter 0.  Then summing net-of-markup flows over exporters (per
importer) and over importers (per exporter) genuinely differ. -/
def sharesAsym : Fin 2 → Fin 2 → Fin 1 → ℝ :=
  fun _ j _ => if j = 0 then 1 else 0

/-! ### Genetic optimizer (`genetic_optimize` in `src/model/optimize.py`)

The stochastic parts — the uniform initial population, tournament selection,
crossover, Gaussian mutation and clipping to bounds — are all driven by the
explicit RNG and only ever *append candidates* to the new population after
the retained elites.  They are abstracted as oracles: `initPop` stands for
`rng.uniform(low, high, ...)` and `children g` for the offspring list the
`while` loop appends in generation `g` (the claim C7 quantifies over every
objective, bounds and configuration, hence over every value of the oracles).
Scores are recomputed by applying the deterministic objective, exactly as the
source re-evaluates `objective` on every individual each generation. -/

variable {α : Type}

/-- Descending comparison by fitness, the order produced by
`np.argsort(scores)[::-1]` (tie order is backend-specific and immaterial:
only scores matter below). -/
def score_ge (f : α → ℝ) (x y : α) : Prop := f y ≤ f x

instance (f : α → ℝ) : DecidableRel (score_ge f) :=
  fun x y => inferInstanceAs (Decidable (f y ≤ f x))

instance (f : α → ℝ) : IsTotal α (score_ge f) := ⟨fun a b => le_total (f b) (f a)⟩

instance (f : α → ℝ) : IsTrans α (score_ge f) :=
  ⟨fun _ _ _ h1 h2 => le_trans h2 h1⟩

/-- Sort the population by descending fitness. -/
def ga_sort (f : α → ℝ) (pop : List α) : List α := List.insertionSort (score_ge f) pop

/-- The elite count `elite_n = max(1, int(config.elite_share * config.population))`. -/
def elite_count (eliteShare : ℝ) (population : ℕ) : ℕ :=
  max 1 ⌊eliteShare * population⌋₊

/-- One generation: sort descending, retain the first `eliteN` unchanged,
append the offspring produced by the selection/crossover/mutation loop. -/
def ga_step (f : α → ℝ) (eliteN : ℕ) (children : List α) (pop : List α) : List α :=
  (ga_sort f pop).take eliteN ++ children

/-- The population at the start of generation `g`. -/
def ga_pop (f : α → ℝ) (eliteN : ℕ) (children : ℕ → List α) (initPop : List α) :
    ℕ → List α
  | 0 => initPop
  | g + 1 => ga_step f eliteN (children g) (ga_pop f eliteN children initPop g)

/-- The optimizer `genetic_optimize`: after the final generation, return
`pop[np.argmax(scores)], scores[np.argmax(scores)]`.  `none` models the
`ValueError` NumPy raises for `argmax` of an empty array. -/
def genetic_optimize (f : α → ℝ) (population : ℕ) (eliteShare : ℝ)
    (children : ℕ → List α) (initPop : List α) (generations : ℕ) : Option (α × ℝ) :=
  (List.argmax f
    (ga_pop f (elite_count eliteShare population) children initPop generations)).map
    fun b => (b, f b)

/-! ## Theorems -/

theorem vecMax_fin_one (f : Fin 1 → ℝ) : vecMax f = f 0 := by
  simp [vecMax]

theorem matMax_fin_one (f : Fin 1 → Fin 1 → ℝ) : matMax f = f 0 0 := by
  simp [matMax, vecMax_fin_one]

theorem le_vecMax [NeZero N] (f : Fin N → ℝ) (i : Fin N) : f i ≤ vecMax f :=
  Finset.le_sup' f (Finset.mem_univ i)

/-- C1: for every importer `i` and sector `s`, the trade shares produced by
`_price_index` sum over exporters to `1` whenever the CES denominator
`denom[i,s] = Σ_j gamma*delivered^(1-σ)` is positive, and are all `0` when the
denominator is zero.  The embedded `trade_shares` is a total function (the
`np.where` guard substitutes `0`), so no division-by-zero error can occur. -/
theorem trade_shares_row_sum (d : ModelData N S) (costs : Fin N → Fin S → ℝ)
    (tariff iceberg : Fin N → Fin N → Fin S → ℝ) (i : Fin N) (s : Fin S) :
    (0 < ces_denom d costs tariff iceberg i s →
      ∑ j, trade_shares d costs tariff iceberg i j s = 1) ∧
    (ces_denom d costs tariff iceberg i s = 0 →
      ∀ j, trade_shares d costs tariff iceberg i j s = 0) := by
  constructor
  · intro h
    have hne : ces_denom d costs tariff iceberg i s ≠ 0 := ne_of_gt h
    simp only [trade_shares, if_pos h]
    rw [← Finset.sum_div]
    exact div_self hne
  · intro h j
    simp [trade_shares, h]

theorem trade_shares_row_sum_witness :
    (∑ j, trade_shares dPos (fun _ _ => 1) (fun _ _ _ => 1) (fun _ _ _ => 1) 0 j 0 = 1) ∧
    (∀ j, trade_shares dZero (fun _ _ => 1) (fun _ _ _ => 1) (fun _ _ _ => 1) 0 j 0 = 0) := by
  constructor
  · refine (trade_shares_row_sum dPos (fun _ _ => 1) (fun _ _ _ => 1) (fun _ _ _ => 1) 0 0).1 ?_
    have : ces_denom dPos (fun _ _ => 1) (fun _ _ _ => 1) (fun _ _ _ => 1) 0 0 = 2 := by
      simp [ces_denom, ces_term, delivered, dPos, Fin.sum_univ_two, Real.one_rpow]
    rw [this]; norm_num
  · refine (trade_shares_row_sum dZero (fun _ _ => 1) (fun _ _ _ => 1) (fun _ _ _ => 1) 0 0).2 ?_
    simp [ces_denom, ces_term, dZero]

/-- C3 (amended): each round of the inner loop computes, from the current
iterate, the bilateral flows
`shares * (a*income + Σ_s' alpha[i,s',s]*revenue[i,s'])`, the tariff revenue,
the income update `wages*L + tariff_rev + D`, the revenue update
`revenue_new[j,s] = Σ_i flows[i,j,s]/(iceberg[i,j,s]*tariff[i,j,s])` — the
`np.sum(..., axis=0)` over *importers* for each exporter, producer revenue —
and continues (when not converged) with the 50/50 convex blend of old and new
values in both components.  The claim's `Σ_j flows[i,j,s]/(...)`, summing
over exporters for each importer, is a transposed computation that disagrees
with the source on asymmetric data (`inner_revenue_counterexample`). -/
theorem inner_round_formulas [NeZero N] [NeZero S] (d : ModelData N S)
    (shares tariff iceberg : Fin N → Fin N → Fin S → ℝ) (wages : Fin N → ℝ)
    (st : IncRev N S) (tol : ℝ) :
    (∀ i j s, flows d shares st i j s
      = shares i j s * (d.a i s * st.income i + ∑ t, d.alpha i t s * st.revenues i t)) ∧
    (∀ i, tariff_rev d shares tariff st i
      = ∑ j, ∑ s, ((tariff i j s - 1) / tariff i j s) * flows d shares st i j s) ∧
    (∀ i, (inner_step d shares tariff iceberg wages st).income i
      = wages i * d.L i + tariff_rev d shares tariff st i + d.D i) ∧
    (∀ j s, (inner_step d shares tariff iceberg wages st).revenues j s
      = ∑ i, flows d shares st i j s / (iceberg i j s * tariff i j s)) ∧
    (∀ fuel trevLast, ¬ inner_max_diff st (inner_step d shares tariff iceberg wages st) < tol →
      solve_income_and_revenue d shares tariff iceberg wages tol (fuel + 1) st trevLast
        = solve_income_and_revenue d shares tariff iceberg wages tol fuel
            ⟨fun i => 0.5 * st.income i
                + 0.5 * (inner_step d shares tariff iceberg wages st).income i,
              fun i s => 0.5 * st.revenues i s
                + 0.5 * (inner_step d shares tariff iceberg wages st).revenues i s⟩
            (tariff_rev d shares tariff st)) := by
  refine ⟨fun i j s => ?_, fun i => rfl, fun i => rfl, fun i s => rfl, fun fuel tr h => ?_⟩
  · simp [flows, total_exp, exp_final, exp_intermediate]
  · simp only [solve_income_and_revenue, if_neg h]
    rfl

theorem inner_round_formulas_witness :
    ¬ inner_max_diff (⟨fun _ => 3, fun _ _ => 0⟩ : IncRev 1 1)
        (inner_step dOne (fun _ _ _ => 1) (fun _ _ _ => 1) (fun _ _ _ => 1) (fun _ => 1)
          ⟨fun _ => 3, fun _ _ => 0⟩) < 1e-9 ∧
    solve_income_and_revenue dOne (fun _ _ _ => 1) (fun _ _ _ => 1) (fun _ _ _ => 1)
        (fun _ => 1) 1e-9 1 ⟨fun _ => 3, fun _ _ => 0⟩ (fun _ => 0)
      = solve_income_and_revenue dOne (fun _ _ _ => 1) (fun _ _ _ => 1) (fun _ _ _ => 1)
          (fun _ => 1) 1e-9 0
          ⟨fun i => 0.5 * (3 : ℝ)
              + 0.5 * (inner_step dOne (fun _ _ _ => 1) (fun _ _ _ => 1) (fun _ _ _ => 1)
                  (fun _ => 1) ⟨fun _ => 3, fun _ _ => 0⟩).income i,
            fun i s => 0.5 * (0 : ℝ)
              + 0.5 * (inner_step dOne (fun _ _ _ => 1) (fun _ _ _ => 1) (fun _ _ _ => 1)
                  (fun _ => 1) ⟨fun _ => 3, fun _ _ => 0⟩).revenues i s⟩
          (tariff_rev dOne (fun _ _ _ => 1) (fun _ _ _ => 1) ⟨fun _ => 3, fun _ _ => 0⟩) := by
  have hrev : (inner_step dOne (fun _ _ _ => 1) (fun _ _ _ => 1) (fun _ _ _ => 1) (fun _ => 1)
      (⟨fun _ => 3, fun _ _ => 0⟩ : IncRev 1 1)).revenues 0 0 = 3 := by
    simp [inner_step, flows, total_exp, exp_final, exp_intermediate, dOne]
  have hnc : ¬ inner_max_diff (⟨fun _ => 3, fun _ _ => 0⟩ : IncRev 1 1)
      (inner_step dOne (fun _ _ _ => 1) (fun _ _ _ => 1) (fun _ _ _ => 1) (fun _ => 1)
        ⟨fun _ => 3, fun _ _ => 0⟩) < 1e-9 := by
    intro h
    have hle : (3 : ℝ) / (|(0 : ℝ)| + 1e-12)
        ≤ inner_max_diff (⟨fun _ => 3, fun _ _ => 0⟩ : IncRev 1 1)
          (inner_step dOne (fun _ _ _ => 1) (fun _ _ _ => 1) (fun _ _ _ => 1) (fun _ => 1)
            ⟨fun _ => 3, fun _ _ => 0⟩) := by
      refine le_trans ?_ (le_max_right _ _)
      rw [matMax_fin_one]
      simp only [hrev]
      norm_num
    rw [abs_zero] at hle
    have : (3 : ℝ) / (0 + 1e-12) < 1e-9 := lt_of_le_of_lt hle h
    norm_num at this
  refine ⟨hnc, ?_⟩
  exact (inner_round_formulas dOne (fun _ _ _ => 1) (fun _ _ _ => 1) (fun _ _ _ => 1)
    (fun _ => 1) ⟨fun _ => 3, fun _ _ => 0⟩ 1e-9).2.2.2.2 0 (fun _ => 0) hnc

/-- C3 counterexample: on two countries where both importers source only from
exporter 0 (unit tariffs/icebergs, unit incomes, zero revenues), the source's
revenue update `np.sum(flows/(iceberg*tariff), axis=0)` gives exporter 0 the
revenue `2` (the sum over both importers), while the claim's formula
`Σ_j flows[i,j,s]/(iceberg[i,j,s]*tariff[i,j,s])` — a sum over exporters for
importer 0 — evaluates to `1`.  The claim's formula is false of the code. -/
theorem inner_revenue_counterexample :
    (inner_step dPos sharesAsym (fun _ _ _ => 1) (fun _ _ _ => 1) (fun _ => 1)
        ⟨fun _ => 1, fun _ _ => 0⟩).revenues 0 0 = 2 ∧
    (∑ j, flows dPos sharesAsym (⟨fun _ => 1, fun _ _ => 0⟩ : IncRev 2 1) 0 j 0 /
        ((fun _ _ _ => (1 : ℝ)) 0 j 0 * (fun _ _ _ => (1 : ℝ)) 0 j 0)) = 1 ∧
    (inner_step dPos sharesAsym (fun _ _ _ => 1) (fun _ _ _ => 1) (fun _ => 1)
        ⟨fun _ => 1, fun _ _ => 0⟩).revenues 0 0
      ≠ ∑ j, flows dPos sharesAsym (⟨fun _ => 1, fun _ _ => 0⟩ : IncRev 2 1) 0 j 0 /
          ((fun _ _ _ => (1 : ℝ)) 0 j 0 * (fun _ _ _ => (1 : ℝ)) 0 j 0) := by
  have hL : (inner_step dPos sharesAsym (fun _ _ _ => 1) (fun _ _ _ => 1) (fun _ => 1)
      (⟨fun _ => 1, fun _ _ => 0⟩ : IncRev 2 1)).revenues 0 0 = 2 := by
    simp [inner_step, flows, total_exp, exp_final, exp_intermediate, dPos, sharesAsym,
      Fin.sum_univ_two]
  have hR : (∑ j, flows dPos sharesAsym (⟨fun _ => 1, fun _ _ => 0⟩ : IncRev 2 1) 0 j 0 /
      ((fun _ _ _ => (1 : ℝ)) 0 j 0 * (fun _ _ _ => (1 : ℝ)) 0 j 0)) = 1 := by
    simp [flows, total_exp, exp_final, exp_intermediate, dPos, sharesAsym,
      Fin.sum_univ_two]
  refine ⟨hL, hR, ?_⟩
  rw [hL, hR]
  norm_num

/-- C10: the two exits of `_solve_income_and_revenue` return
differently-constructed values.  When the measure of the current round meets
the tolerance, the loop returns the freshly computed un-damped `income_new`,
`revenues_new` (one application of `inner_step` to the current blended
iterate); only on fuel exhaustion does it return the 50/50 blended iterate. -/
theorem inner_exit_paths [NeZero N] [NeZero S] (d : ModelData N S)
    (shares tariff iceberg : Fin N → Fin N → Fin S → ℝ) (wages : Fin N → ℝ)
    (tol : ℝ) (fuel : ℕ) (st : IncRev N S) (trevLast : Fin N → ℝ) :
    (inner_max_diff st (inner_step d shares tariff iceberg wages st) < tol →
      solve_income_and_revenue d shares tariff iceberg wages tol (fuel + 1) st trevLast
        = (inner_step d shares tariff iceberg wages st, tariff_rev d shares tariff st)) ∧
    (¬ inner_max_diff st (inner_step d shares tariff iceberg wages st) < tol →
      solve_income_and_revenue d shares tariff iceberg wages tol 1 st trevLast
        = (inner_blend st (inner_step d shares tariff iceberg wages st),
            tariff_rev d shares tariff st)) := by
  constructor
  · intro h
    simp only [solve_income_and_revenue, if_pos h]
  · intro h
    simp only [solve_income_and_revenue, if_neg h]

theorem inner_exit_paths_witness :
    (inner_max_diff (⟨fun _ => 1, fun _ _ => 1⟩ : IncRev 1 1)
        (inner_step dOne (fun _ _ _ => 1) (fun _ _ _ => 1) (fun _ _ _ => 1) (fun _ => 1)
          ⟨fun _ => 1, fun _ _ => 1⟩) < 1e-9 ∧
      solve_income_and_revenue dOne (fun _ _ _ => 1) (fun _ _ _ => 1) (fun _ _ _ => 1)
          (fun _ => 1) 1e-9 1 ⟨fun _ => 1, fun _ _ => 1⟩ (fun _ => 0)
        = (inner_step dOne (fun _ _ _ => 1) (fun _ _ _ => 1) (fun _ _ _ => 1) (fun _ => 1)
            ⟨fun _ => 1, fun _ _ => 1⟩,
          tariff_rev dOne (fun _ _ _ => 1) (fun _ _ _ => 1) ⟨fun _ => 1, fun _ _ => 1⟩)) ∧
    (¬ inner_max_diff (⟨fun _ => 2, fun _ _ => 0⟩ : IncRev 1 1)
        (inner_step dOne (fun _ _ _ => 1) (fun _ _ _ => 1) (fun _ _ _ => 1) (fun _ => 1)
          ⟨fun _ => 2, fun _ _ => 0⟩) < 1e-9 ∧
      solve_income_and_revenue dOne (fun _ _ _ => 1) (fun _ _ _ => 1) (fun _ _ _ => 1)
          (fun _ => 1) 1e-9 1 ⟨fun _ => 2, fun _ _ => 0⟩ (fun _ => 0)
        = (inner_blend ⟨fun _ => 2, fun _ _ => 0⟩
            (inner_step dOne (fun _ _ _ => 1) (fun _ _ _ => 1) (fun _ _ _ => 1) (fun _ => 1)
              ⟨fun _ => 2, fun _ _ => 0⟩),
          tariff_rev dOne (fun _ _ _ => 1) (fun _ _ _ => 1) ⟨fun _ => 2, fun _ _ => 0⟩)) := by
  have hfix : inner_step dOne (fun _ _ _ => 1) (fun _ _ _ => 1) (fun _ _ _ => 1) (fun _ => 1)
      (⟨fun _ => 1, fun _ _ => 1⟩ : IncRev 1 1) = ⟨fun _ => 1, fun _ _ => 1⟩ := by
    refine congrArg₂ IncRev.mk ?_ ?_ <;> funext i <;>
      simp [inner_step, tariff_rev, flows, total_exp, exp_final, exp_intermediate, dOne]
  have hconv : inner_max_diff (⟨fun _ => 1, fun _ _ => 1⟩ : IncRev 1 1)
      (inner_step dOne (fun _ _ _ => 1) (fun _ _ _ => 1) (fun _ _ _ => 1) (fun _ => 1)
        ⟨fun _ => 1, fun _ _ => 1⟩) < 1e-9 := by
    rw [hfix]
    have : inner_max_diff (⟨fun _ => 1, fun _ _ => 1⟩ : IncRev 1 1)
        ⟨fun _ => 1, fun _ _ => 1⟩ = 0 := by
      simp [inner_max_diff, vecMax_fin_one, matMax_fin_one]
    rw [this]; norm_num
  have hrev2 : (inner_step dOne (fun _ _ _ => 1) (fun _ _ _ => 1) (fun _ _ _ => 1) (fun _ => 1)
      (⟨fun _ => 2, fun _ _ => 0⟩ : IncRev 1 1)).revenues 0 0 = 2 := by
    simp [inner_step, flows, total_exp, exp_final, exp_intermediate, dOne]
  have hnc : ¬ inner_max_diff (⟨fun _ => 2, fun _ _ => 0⟩ : IncRev 1 1)
      (inner_step dOne (fun _ _ _ => 1) (fun _ _ _ => 1) (fun _ _ _ => 1) (fun _ => 1)
        ⟨fun _ => 2, fun _ _ => 0⟩) < 1e-9 := by
    intro h
    have hle : (2 : ℝ) / (|(0 : ℝ)| + 1e-12)
        ≤ inner_max_diff (⟨fun _ => 2, fun _ _ => 0⟩ : IncRev 1 1)
          (inner_step dOne (fun _ _ _ => 1) (fun _ _ _ => 1) (fun _ _ _ => 1) (fun _ => 1)
            ⟨fun _ => 2, fun _ _ => 0⟩) := by
      refine le_trans ?_ (le_max_right _ _)
      rw [matMax_fin_one]
      simp only [hrev2]
      norm_num
    rw [abs_zero] at hle
    have : (2 : ℝ) / (0 + 1e-12) < 1e-9 := lt_of_le_of_lt hle h
    norm_num at this
  exact ⟨⟨hconv,
      (inner_exit_paths dOne (fun _ _ _ => 1) (fun _ _ _ => 1) (fun _ _ _ => 1) (fun _ => 1)
        1e-9 0 ⟨fun _ => 1, fun _ _ => 1⟩ (fun _ => 0)).1 hconv⟩,
    ⟨hnc,
      (inner_exit_paths dOne (fun _ _ _ => 1) (fun _ _ _ => 1) (fun _ _ _ => 1) (fun _ => 1)
        1e-9 0 ⟨fun _ => 2, fun _ _ => 0⟩ (fun _ => 0)).2 hnc⟩⟩

/-! Helper computations on the concrete economies, shared by several
witnesses and counterexamples below. -/

theorem vecMax_const [NeZero N] (c : ℝ) : vecMax (fun _ : Fin N => c) = c := by
  simp [vecMax]

theorem matMax_const [NeZero N] [NeZero S] (c : ℝ) :
    matMax (fun _ : Fin N => fun _ : Fin S => c) = c := by
  simp [matMax, vecMax_const]

theorem inner_max_diff_self [NeZero N] [NeZero S] (st : IncRev N S) :
    inner_max_diff st st = 0 := by
  simp [inner_max_diff, matMax, sub_self, vecMax_const]

theorem solve_inner_one_round_conv [NeZero N] [NeZero S] (d : ModelData N S)
    (shares tariff iceberg : Fin N → Fin N → Fin S → ℝ) (wages : Fin N → ℝ)
    (tol : ℝ) (fuel : ℕ) (st : IncRev N S) (trevLast : Fin N → ℝ)
    (h : inner_max_diff st (inner_step d shares tariff iceberg wages st) < tol) :
    solve_income_and_revenue d shares tariff iceberg wages tol (fuel + 1) st trevLast
      = (inner_step d shares tariff iceberg wages st, tariff_rev d shares tariff st) := by
  simp only [solve_income_and_revenue, if_pos h]

theorem unit_costs_one :
    unit_costs dOne (fun _ => 1) (fun _ _ => 1) = fun _ _ => 1 := by
  funext i s
  simp [unit_costs, dOne]

theorem unit_costs_pert :
    unit_costs dPert (fun _ => 1) (fun _ _ => 1) = fun _ _ => 1 := by
  funext i s
  simp [unit_costs, dPert]

theorem shares_one :
    trade_shares dOne (fun _ _ => 1) (fun _ _ _ => 1) (fun _ _ _ => 1) = fun _ _ _ => 1 := by
  funext i j s
  have hd : ces_denom dOne (fun _ _ => 1) (fun _ _ _ => 1) (fun _ _ _ => 1) i s = 1 := by
    simp [ces_denom, ces_term, delivered, dOne]
  have ht : ces_term dOne (fun _ _ => 1) (fun _ _ _ => 1) (fun _ _ _ => 1) i j s = 1 := by
    simp [ces_term, delivered, dOne]
  simp [trade_shares, hd, ht]

theorem shares_pert :
    trade_shares dPert (fun _ _ => 1) (fun _ _ _ => 1) (fun _ _ _ => 1) = fun _ _ _ => 1 := by
  funext i j s
  have hd : ces_denom dPert (fun _ _ => 1) (fun _ _ _ => 1) (fun _ _ _ => 1) i s
      = (1 + 2 / 10 ^ 8)⁻¹ := by
    simp [ces_denom, ces_term, delivered, dPert]
  have ht : ces_term dPert (fun _ _ => 1) (fun _ _ _ => 1) (fun _ _ _ => 1) i j s
      = (1 + 2 / 10 ^ 8)⁻¹ := by
    simp [ces_term, delivered, dPert]
  have hpos : (0 : ℝ) < (1 + 2 / 10 ^ 8)⁻¹ := by norm_num
  simp only [trade_shares, hd, ht, if_pos hpos]
  exact div_self (ne_of_gt hpos)

theorem ces_one :
    ces_prices dOne (fun _ _ => 1) (fun _ _ _ => 1) (fun _ _ _ => 1) = fun _ _ => 1 := by
  funext i s
  have hd : ces_denom dOne (fun _ _ => 1) (fun _ _ _ => 1) (fun _ _ _ => 1) i s = 1 := by
    simp [ces_denom, ces_term, delivered, dOne]
  simp [ces_prices, hd]

theorem ces_pert :
    ces_prices dPert (fun _ _ => 1) (fun _ _ _ => 1) (fun _ _ _ => 1)
      = fun _ _ => 1 + 2 / 10 ^ 8 := by
  funext i s
  have hd : ces_denom dPert (fun _ _ => 1) (fun _ _ _ => 1) (fun _ _ _ => 1) i s
      = (1 + 2 / 10 ^ 8)⁻¹ := by
    simp [ces_denom, ces_term, delivered, dPert]
  have he : (1 : ℝ) / (1 - dPert.sigma s) = -1 := by
    norm_num [dPert]
  simp only [ces_prices, hd, he, Real.rpow_neg_one, inv_inv]

theorem inner_fix_one :
    inner_step dOne (fun _ _ _ => 1) (fun _ _ _ => 1) (fun _ _ _ => 1) (fun _ => 1)
      (⟨fun _ => 1, fun _ _ => 1⟩ : IncRev 1 1) = ⟨fun _ => 1, fun _ _ => 1⟩ := by
  refine congrArg₂ IncRev.mk ?_ ?_ <;> funext i <;>
    simp [inner_step, tariff_rev, flows, total_exp, exp_final, exp_intermediate, dOne]

theorem inner_fix_pert :
    inner_step dPert (fun _ _ _ => 1) (fun _ _ _ => 1) (fun _ _ _ => 1) (fun _ => 1)
      (⟨fun _ => 1, fun _ _ => 1⟩ : IncRev 1 1) = ⟨fun _ => 1, fun _ _ => 1⟩ := by
  refine congrArg₂ IncRev.mk ?_ ?_ <;> funext i <;>
    simp [inner_step, tariff_rev, flows, total_exp, exp_final, exp_intermediate, dPert]

theorem trev_fix_one :
    tariff_rev dOne (fun _ _ _ => 1) (fun _ _ _ => 1)
      (⟨fun _ => 1, fun _ _ => 1⟩ : IncRev 1 1) = fun _ => 0 := by
  funext i
  simp [tariff_rev, flows, total_exp, exp_final, exp_intermediate, dOne]

theorem trev_fix_pert :
    tariff_rev dPert (fun _ _ _ => 1) (fun _ _ _ => 1)
      (⟨fun _ => 1, fun _ _ => 1⟩ : IncRev 1 1) = fun _ => 0 := by
  funext i
  simp [tariff_rev, flows, total_exp, exp_final, exp_intermediate, dPert]

theorem inner_result_one :
    inner_result dOne (fun _ _ _ => 1) (fun _ _ _ => 1) (init_state dOne)
      = (⟨fun _ => 1, fun _ _ => 1⟩, fun _ => 0) := by
  have hst : (⟨(init_state dOne).income, (init_state dOne).revenues⟩ : IncRev 1 1)
      = ⟨fun _ => 1, fun _ _ => 1⟩ := by
    refine congrArg₂ IncRev.mk ?_ rfl
    funext i
    simp [init_state, dOne]
  simp only [inner_result, hst]
  rw [show (init_state dOne).wages = (fun _ => (1 : ℝ)) from rfl,
    show (init_state dOne).prices = (fun _ _ => (1 : ℝ)) from rfl,
    show (init_state dOne).trev = (fun _ => (0 : ℝ)) from rfl,
    unit_costs_one, shares_one, show (500 : ℕ) = 499 + 1 from rfl]
  rw [solve_inner_one_round_conv _ _ _ _ _ _ _ _ _
    (by rw [inner_fix_one, inner_max_diff_self]; norm_num)]
  rw [inner_fix_one, trev_fix_one]

theorem inner_result_pert :
    inner_result dPert (fun _ _ _ => 1) (fun _ _ _ => 1) (init_state dPert)
      = (⟨fun _ => 1, fun _ _ => 1⟩, fun _ => 0) := by
  have hst : (⟨(init_state dPert).income, (init_state dPert).revenues⟩ : IncRev 1 1)
      = ⟨fun _ => 1, fun _ _ => 1⟩ := by
    refine congrArg₂ IncRev.mk ?_ rfl
    funext i
    simp [init_state, dPert]
  simp only [inner_result, hst]
  rw [show (init_state dPert).wages = (fun _ => (1 : ℝ)) from rfl,
    show (init_state dPert).prices = (fun _ _ => (1 : ℝ)) from rfl,
    show (init_state dPert).trev = (fun _ => (0 : ℝ)) from rfl,
    unit_costs_pert, shares_pert, show (500 : ℕ) = 499 + 1 from rfl]
  rw [solve_inner_one_round_conv _ _ _ _ _ _ _ _ _
    (by rw [inner_fix_pert, inner_max_diff_self]; norm_num)]
  rw [inner_fix_pert, trev_fix_pert]

theorem pre_norm_one :
    pre_norm_wage dOne (fun _ _ _ => 1) (fun _ _ _ => 1) 0.3 (init_state dOne)
      = fun _ => 1 := by
  funext i
  simp only [pre_norm_wage, inner_result_one]
  simp [init_state, dOne]

theorem pre_norm_pert :
    pre_norm_wage dPert (fun _ _ _ => 1) (fun _ _ _ => 1) 0.3 (init_state dPert)
      = fun _ => 1 := by
  funext i
  simp only [pre_norm_wage, inner_result_pert]
  simp [init_state, dPert]

theorem wages_upd_one :
    wages_update dOne (fun _ _ _ => 1) (fun _ _ _ => 1) 0.3 (init_state dOne)
      = fun _ => 1 := by
  funext i
  simp [wages_update, pre_norm_one]

theorem wages_upd_pert :
    wages_update dPert (fun _ _ _ => 1) (fun _ _ _ => 1) 0.3 (init_state dPert)
      = fun _ => 1 := by
  funext i
  simp [wages_update, pre_norm_pert]

theorem outer_measure_one :
    outer_max_diff dOne (fun _ _ _ => 1) (fun _ _ _ => 1) 0.3 (init_state dOne) = 0 := by
  simp only [outer_max_diff, wages_upd_one, vecMax_fin_one, matMax_fin_one]
  rw [show (init_state dOne).wages = (fun _ => (1 : ℝ)) from rfl,
    show (init_state dOne).prices = (fun _ _ => (1 : ℝ)) from rfl, unit_costs_one, ces_one]
  norm_num

theorem outer_measure_pert :
    outer_max_diff dPert (fun _ _ _ => 1) (fun _ _ _ => 1) 0.3 (init_state dPert)
      = (2 / 10 ^ 8) / (1 + 1e-12) := by
  simp only [outer_max_diff, wages_upd_pert, vecMax_fin_one, matMax_fin_one]
  rw [show (init_state dPert).wages = (fun _ => (1 : ℝ)) from rfl,
    show (init_state dPert).prices = (fun _ _ => (1 : ℝ)) from rfl, unit_costs_pert, ces_pert]
  have habs : |1 + 2 / 10 ^ 8 - (1 : ℝ)| = 2 / 10 ^ 8 := by
    rw [show (1 : ℝ) + 2 / 10 ^ 8 - 1 = 2 / 10 ^ 8 by ring]
    exact abs_of_pos (by norm_num)
  simp only [habs]
  rw [max_eq_right (by norm_num)]
  norm_num

theorem outer_no_conv_pert :
    ¬ outer_max_diff dPert (fun _ _ _ => 1) (fun _ _ _ => 1) 0.3 (init_state dPert) < 1e-8 := by
  rw [outer_measure_pert]
  norm_num

theorem numeraire_after_loop [NeZero N] [NeZero S] (d : ModelData N S)
    (tariff iceberg : Fin N → Fin N → Fin S → ℝ) (damp tol : ℝ) (fuel : ℕ)
    (st : OuterState N S) (hfuel : 1 ≤ fuel)
    (h : ∀ k < fuel, pre_norm_wage d tariff iceberg damp
        ((outer_round d tariff iceberg damp)^[k] st) 0 ≠ 0) :
    (solve_equilibrium_loop d tariff iceberg damp tol fuel st).1.wages 0 = 1 := by
  induction fuel generalizing st with
  | zero => omega
  | succ n ih =>
    have h0 : pre_norm_wage d tariff iceberg damp st 0 ≠ 0 := by
      have := h 0 (Nat.succ_pos n)
      simpa using this
    have hw : (outer_round d tariff iceberg damp st).wages 0 = 1 := by
      show wages_update d tariff iceberg damp st 0 = 1
      unfold wages_update
      exact div_self h0
    by_cases hc : outer_max_diff d tariff iceberg damp st < tol
    · simp only [solve_equilibrium_loop, if_pos hc]
      exact hw
    · simp only [solve_equilibrium_loop, if_neg hc]
      cases n with
      | zero => exact hw
      | succ m =>
        exact ih (outer_round d tariff iceberg damp st) (Nat.succ_pos m) (fun k hk => by
          have := h (k + 1) (by omega)
          rwa [Function.iterate_succ_apply] at this)

/-- C2: each outer-loop round divides the updated wage vector by its own
first component (`wages_new /= wages_new[0]`), so `wages[0] = 1` exactly in
the state after every round, and hence in the state the solver returns,
provided the pre-normalization update `wages * (labor_demand/L)^damp` has a
nonzero first component at each executed round (the claim's finite-and-
nonzero hypothesis; finiteness is automatic in exact real arithmetic). -/
theorem wages_numeraire [NeZero N] [NeZero S] (d : ModelData N S)
    (tariff iceberg : Fin N → Fin N → Fin S → ℝ) (damp tol : ℝ) (fuel : ℕ)
    (st : OuterState N S) :
    (pre_norm_wage d tariff iceberg damp st 0 ≠ 0 →
      (outer_round d tariff iceberg damp st).wages 0 = 1) ∧
    (1 ≤ fuel →
      (∀ k < fuel, pre_norm_wage d tariff iceberg damp
        ((outer_round d tariff iceberg damp)^[k] st) 0 ≠ 0) →
      (solve_equilibrium_loop d tariff iceberg damp tol fuel st).1.wages 0 = 1) := by
  constructor
  · intro h0
    show wages_update d tariff iceberg damp st 0 = 1
    unfold wages_update
    exact div_self h0
  · intro hfuel h
    exact numeraire_after_loop d tariff iceberg damp tol fuel st hfuel h

theorem wages_numeraire_witness :
    (pre_norm_wage dOne (fun _ _ _ => 1) (fun _ _ _ => 1) 0.3 (init_state dOne) 0 ≠ 0 ∧
      ∀ k < 1, pre_norm_wage dOne (fun _ _ _ => 1) (fun _ _ _ => 1) 0.3
        ((outer_round dOne (fun _ _ _ => 1) (fun _ _ _ => 1) 0.3)^[k]
          (init_state dOne)) 0 ≠ 0) ∧
    (outer_round dOne (fun _ _ _ => 1) (fun _ _ _ => 1) 0.3 (init_state dOne)).wages 0
      = 1 ∧
    (solve_equilibrium_loop dOne (fun _ _ _ => 1) (fun _ _ _ => 1) 0.3 1e-8 1
      (init_state dOne)).1.wages 0 = 1 := by
  have hpre0 : pre_norm_wage dOne (fun _ _ _ => 1) (fun _ _ _ => 1) 0.3
      (init_state dOne) 0 ≠ 0 := by
    rw [pre_norm_one]
    norm_num
  have hpre : ∀ k < 1, pre_norm_wage dOne (fun _ _ _ => 1) (fun _ _ _ => 1) 0.3
      ((outer_round dOne (fun _ _ _ => 1) (fun _ _ _ => 1) 0.3)^[k]
        (init_state dOne)) 0 ≠ 0 := by
    intro k hk
    have hk0 : k = 0 := by omega
    subst hk0
    rw [Function.iterate_zero_apply]
    exact hpre0
  exact ⟨⟨hpre0, hpre⟩,
    (wages_numeraire dOne (fun _ _ _ => 1) (fun _ _ _ => 1) 0.3 1e-8 1
      (init_state dOne)).1 hpre0,
    (wages_numeraire dOne (fun _ _ _ => 1) (fun _ _ _ => 1) 0.3 1e-8 1
      (init_state dOne)).2 (le_refl 1) hpre⟩

theorem inner_exhaust [NeZero N] [NeZero S] (d : ModelData N S)
    (shares tariff iceberg : Fin N → Fin N → Fin S → ℝ) (wages : Fin N → ℝ)
    (itol : ℝ) (fuel : ℕ) (ist : IncRev N S) (trevLast : Fin N → ℝ)
    (h : ∀ k < fuel, ¬ inner_max_diff ((inner_iterate d shares tariff iceberg wages)^[k] ist)
      (inner_step d shares tariff iceberg wages
        ((inner_iterate d shares tariff iceberg wages)^[k] ist)) < itol) :
    (solve_income_and_revenue d shares tariff iceberg wages itol fuel ist trevLast).1
      = (inner_iterate d shares tariff iceberg wages)^[fuel] ist := by
  induction fuel generalizing ist trevLast with
  | zero => rfl
  | succ n ih =>
    have h0 := h 0 (Nat.succ_pos n)
    rw [Function.iterate_zero_apply] at h0
    simp only [solve_income_and_revenue, if_neg h0]
    rw [Function.iterate_succ_apply]
    exact ih (inner_blend ist (inner_step d shares tariff iceberg wages ist))
      (tariff_rev d shares tariff ist) (fun k hk => by
        have := h (k + 1) (by omega)
        rwa [Function.iterate_succ_apply] at this)

theorem outer_exhaust [NeZero N] [NeZero S] (d : ModelData N S)
    (tariff iceberg : Fin N → Fin N → Fin S → ℝ) (damp otol : ℝ) (fuel : ℕ)
    (ost : OuterState N S)
    (h : ∀ k < fuel, ¬ outer_max_diff d tariff iceberg damp
      ((outer_round d tariff iceberg damp)^[k] ost) < otol) :
    (solve_equilibrium_loop d tariff iceberg damp otol fuel ost).1
      = (outer_round d tariff iceberg damp)^[fuel] ost ∧
    (solve_equilibrium_loop d tariff iceberg damp otol fuel ost).2.2 = false := by
  induction fuel generalizing ost with
  | zero => exact ⟨rfl, rfl⟩
  | succ n ih =>
    have h0 := h 0 (Nat.succ_pos n)
    rw [Function.iterate_zero_apply] at h0
    simp only [solve_equilibrium_loop, if_neg h0]
    have hrec := ih (outer_round d tariff iceberg damp ost) (fun k hk => by
      have := h (k + 1) (by omega)
      rwa [Function.iterate_succ_apply] at this)
    exact ⟨by rw [Function.iterate_succ_apply]; exact hrec.1, hrec.2⟩

/-- C4: when either fixed-point loop exhausts its iteration budget with the
convergence measure never dropping below its tolerance, it returns its last
iterate normally — the inner loop the fuel-fold of the blended update, the
outer loop the fuel-fold of `outer_round` — through the same return path and
value type as the converged case.  No exception exists in the embedding
(both loops are total functions), and the Python return value carries no
convergence indication; the Bool in the embedded outer loop is
instrumentation recording which exit was taken (`false` = exhaustion). -/
theorem exhaustion_returns_last_iterate [NeZero N] [NeZero S] (d : ModelData N S)
    (shares tariff iceberg : Fin N → Fin N → Fin S → ℝ) (wages : Fin N → ℝ)
    (itol otol damp : ℝ) (innerFuel outerFuel : ℕ) (ist : IncRev N S)
    (trevLast : Fin N → ℝ) (ost : OuterState N S) :
    ((∀ k < innerFuel,
        ¬ inner_max_diff ((inner_iterate d shares tariff iceberg wages)^[k] ist)
          (inner_step d shares tariff iceberg wages
            ((inner_iterate d shares tariff iceberg wages)^[k] ist)) < itol) →
      (solve_income_and_revenue d shares tariff iceberg wages itol innerFuel ist trevLast).1
        = (inner_iterate d shares tariff iceberg wages)^[innerFuel] ist) ∧
    ((∀ k < outerFuel, ¬ outer_max_diff d tariff iceberg damp
        ((outer_round d tariff iceberg damp)^[k] ost) < otol) →
      (solve_equilibrium_loop d tariff iceberg damp otol outerFuel ost).1
        = (outer_round d tariff iceberg damp)^[outerFuel] ost ∧
      (solve_equilibrium_loop d tariff iceberg damp otol outerFuel ost).2.2 = false) :=
  ⟨fun h => inner_exhaust d shares tariff iceberg wages itol innerFuel ist trevLast h,
   fun h => outer_exhaust d tariff iceberg damp otol outerFuel ost h⟩

theorem exhaustion_returns_last_iterate_witness :
    ((solve_income_and_revenue dOne (fun _ _ _ => 1) (fun _ _ _ => 1) (fun _ _ _ => 1)
        (fun _ => 1) 1e-9 1 ⟨fun _ => 3, fun _ _ => 0⟩ (fun _ => 0)).1
      = (inner_iterate dOne (fun _ _ _ => 1) (fun _ _ _ => 1) (fun _ _ _ => 1)
          (fun _ => 1))^[1] ⟨fun _ => 3, fun _ _ => 0⟩) ∧
    ((solve_equilibrium_loop dPert (fun _ _ _ => 1) (fun _ _ _ => 1) 0.3 1e-8 1
        (init_state dPert)).1
      = (outer_round dPert (fun _ _ _ => 1) (fun _ _ _ => 1) 0.3)^[1] (init_state dPert) ∧
      (solve_equilibrium_loop dPert (fun _ _ _ => 1) (fun _ _ _ => 1) 0.3 1e-8 1
        (init_state dPert)).2.2 = false) := by
  have hrev3 : (inner_step dOne (fun _ _ _ => 1) (fun _ _ _ => 1) (fun _ _ _ => 1)
      (fun _ => 1) (⟨fun _ => 3, fun _ _ => 0⟩ : IncRev 1 1)).revenues 0 0 = 3 := by
    simp [inner_step, flows, total_exp, exp_final, exp_intermediate, dOne]
  have hnc : ¬ inner_max_diff (⟨fun _ => 3, fun _ _ => 0⟩ : IncRev 1 1)
      (inner_step dOne (fun _ _ _ => 1) (fun _ _ _ => 1) (fun _ _ _ => 1) (fun _ => 1)
        ⟨fun _ => 3, fun _ _ => 0⟩) < 1e-9 := by
    intro h
    have hle : (3 : ℝ) / (|(0 : ℝ)| + 1e-12)
        ≤ inner_max_diff (⟨fun _ => 3, fun _ _ => 0⟩ : IncRev 1 1)
          (inner_step dOne (fun _ _ _ => 1) (fun _ _ _ => 1) (fun _ _ _ => 1) (fun _ => 1)
            ⟨fun _ => 3, fun _ _ => 0⟩) := by
      refine le_trans ?_ (le_max_right _ _)
      rw [matMax_fin_one]
      simp only [hrev3]
      norm_num
    rw [abs_zero] at hle
    have : (3 : ℝ) / (0 + 1e-12) < 1e-9 := lt_of_le_of_lt hle h
    norm_num at this
  refine ⟨(exhaustion_returns_last_iterate dOne (fun _ _ _ => 1) (fun _ _ _ => 1)
      (fun _ _ _ => 1) (fun _ => 1) 1e-9 1e-8 0.3 1 1 ⟨fun _ => 3, fun _ _ => 0⟩
      (fun _ => 0) (init_state dOne)).1 ?_,
    (exhaustion_returns_last_iterate dPert (fun _ _ _ => 1) (fun _ _ _ => 1)
      (fun _ _ _ => 1) (fun _ => 1) 1e-9 1e-8 0.3 1 1 ⟨fun _ => 3, fun _ _ => 0⟩
      (fun _ => 0) (init_state dPert)).2 ?_⟩
  · intro k hk
    have hk0 : k = 0 := by omega
    subst hk0
    rw [Function.iterate_zero_apply]
    exact hnc
  · intro k hk
    have hk0 : k = 0 := by omega
    subst hk0
    rw [Function.iterate_zero_apply]
    exact outer_no_conv_pert

/-- C5 (amended): the outer solver stops before exhausting its budget exactly
when, at some executed round, the source's measure `outer_max_diff` falls
below `tol`: the maximum of the componentwise relative wage change between
consecutive iterates and the componentwise relative deviation of the freshly
computed (un-damped) CES prices from the previous prices — not the change of
the damped price iterate the loop actually carries forward, which is `damp`
times smaller (see `outer_stop_spec_counterexample`). -/
theorem outer_stop_iff [NeZero N] [NeZero S] (d : ModelData N S)
    (tariff iceberg : Fin N → Fin N → Fin S → ℝ) (damp tol : ℝ) (fuel : ℕ)
    (st : OuterState N S) :
    (solve_equilibrium_loop d tariff iceberg damp tol fuel st).2.2 = true ↔
      ∃ k < fuel, outer_max_diff d tariff iceberg damp
        ((outer_round d tariff iceberg damp)^[k] st) < tol := by
  induction fuel generalizing st with
  | zero => simp [solve_equilibrium_loop]
  | succ n ih =>
    by_cases hc : outer_max_diff d tariff iceberg damp st < tol
    · simp only [solve_equilibrium_loop, if_pos hc]
      constructor
      · intro _
        exact ⟨0, Nat.succ_pos n, by simpa using hc⟩
      · intro _
        trivial
    · simp only [solve_equilibrium_loop, if_neg hc]
      rw [ih (outer_round d tariff iceberg damp st)]
      constructor
      · rintro ⟨k, hk, hmeas⟩
        exact ⟨k + 1, by omega, by rwa [Function.iterate_succ_apply]⟩
      · rintro ⟨k, hk, hmeas⟩
        cases k with
        | zero => exact absurd (by simpa using hmeas) hc
        | succ m =>
          exact ⟨m, by omega, by rwa [Function.iterate_succ_apply] at hmeas⟩

theorem outer_stop_iff_witness :
    (solve_equilibrium_loop dOne (fun _ _ _ => 1) (fun _ _ _ => 1) 0.3 1e-8 1
      (init_state dOne)).2.2 = true :=
  (outer_stop_iff dOne (fun _ _ _ => 1) (fun _ _ _ => 1) 0.3 1e-8 1
    (init_state dOne)).mpr
    ⟨0, Nat.one_pos, by rw [Function.iterate_zero_apply, outer_measure_one]; norm_num⟩

theorem spec_change_pert :
    spec_consecutive_change dPert (fun _ _ _ => 1) (fun _ _ _ => 1) 0.3 (init_state dPert)
      = (6 / 10 ^ 9) / (1 + 1e-12) := by
  simp only [spec_consecutive_change, outer_round, vecMax_fin_one, matMax_fin_one,
    wages_upd_pert]
  rw [show (init_state dPert).wages = (fun _ => (1 : ℝ)) from rfl,
    show (init_state dPert).prices = (fun _ _ => (1 : ℝ)) from rfl, unit_costs_pert, ces_pert]
  have habs : |(1 - 0.3) * 1 + 0.3 * (1 + 2 / 10 ^ 8) - (1 : ℝ)| = 6 / 10 ^ 9 := by
    rw [show (1 - 0.3) * 1 + 0.3 * (1 + 2 / 10 ^ 8) - (1 : ℝ) = 6 / 10 ^ 9 by norm_num]
    exact abs_of_pos (by norm_num)
  simp only [habs]
  rw [max_eq_right (by norm_num)]
  norm_num

/-- C5 counterexample: on the one-country economy `dPert` started from the
unit initial guess, the maximum componentwise relative change between
consecutive iterates (wages and the damped price iterate) is
`6e-9 / (1 + 1e-12) < 1e-8 = tol`, yet the solver does **not** stop: after a
budget of one round the loop leaves through the exhaustion exit
(`flag = false`), because the source compares the un-damped CES prices
(`2e-8` away) against the tolerance. -/
theorem outer_stop_spec_counterexample :
    spec_consecutive_change dPert (fun _ _ _ => 1) (fun _ _ _ => 1) 0.3
      (init_state dPert) < 1e-8 ∧
    (solve_equilibrium_loop dPert (fun _ _ _ => 1) (fun _ _ _ => 1) 0.3 1e-8 1
      (init_state dPert)).2.2 = false := by
  constructor
  · rw [spec_change_pert]
    norm_num
  · simp only [solve_equilibrium_loop, if_neg outer_no_conv_pert]

theorem unit_costs_pos (d : ModelData N S) (w : Fin N → ℝ) (p : Fin N → Fin S → ℝ)
    (i : Fin N) (s : Fin S) : 0 < unit_costs d w p i s :=
  Real.exp_pos _

theorem ces_term_scale (d : ModelData N S) (tariff iceberg : Fin N → Fin N → Fin S → ℝ)
    (c : ℝ) (hc : 0 < c) (costs : Fin N → Fin S → ℝ) (hcost : ∀ j s, 0 ≤ costs j s)
    (htar : ∀ i j s, 0 ≤ tariff i j s) (hice : ∀ i j s, 0 ≤ iceberg i j s)
    (i j : Fin N) (s : Fin S) :
    ces_term d (fun j s => c * costs j s) tariff iceberg i j s
      = c ^ (1 - d.sigma s) * ces_term d costs tariff iceberg i j s := by
  unfold ces_term delivered
  rw [show c * costs j s * iceberg i j s * tariff i j s
      = c * (costs j s * iceberg i j s * tariff i j s) by ring,
    Real.mul_rpow hc.le
      (mul_nonneg (mul_nonneg (hcost j s) (hice i j s)) (htar i j s))]
  ring

theorem ces_denom_scale (d : ModelData N S) (tariff iceberg : Fin N → Fin N → Fin S → ℝ)
    (c : ℝ) (hc : 0 < c) (costs : Fin N → Fin S → ℝ) (hcost : ∀ j s, 0 ≤ costs j s)
    (htar : ∀ i j s, 0 ≤ tariff i j s) (hice : ∀ i j s, 0 ≤ iceberg i j s)
    (i : Fin N) (s : Fin S) :
    ces_denom d (fun j s => c * costs j s) tariff iceberg i s
      = c ^ (1 - d.sigma s) * ces_denom d costs tariff iceberg i s := by
  unfold ces_denom
  rw [Finset.mul_sum]
  exact Finset.sum_congr rfl fun j _ =>
    ces_term_scale d tariff iceberg c hc costs hcost htar hice i j s

theorem ces_denom_nonneg (d : ModelData N S) (tariff iceberg : Fin N → Fin N → Fin S → ℝ)
    (costs : Fin N → Fin S → ℝ) (hγ : ∀ i j s, 0 ≤ d.gamma i j s)
    (hcost : ∀ j s, 0 ≤ costs j s) (htar : ∀ i j s, 0 ≤ tariff i j s)
    (hice : ∀ i j s, 0 ≤ iceberg i j s) (i : Fin N) (s : Fin S) :
    0 ≤ ces_denom d costs tariff iceberg i s := by
  refine Finset.sum_nonneg fun j _ => mul_nonneg (hγ i j s) ?_
  exact Real.rpow_nonneg
    (mul_nonneg (mul_nonneg (hcost j s) (hice i j s)) (htar i j s)) _

/-- C6: for every positive scalar `c`, when the labor shares satisfy the
accounting identity `beta = 1 - Σ_k alpha`, computing unit costs from the
scaled guess `(c*wages, c*prices)` scales the costs exactly by `c`, leaves
every trade share unchanged, and scales every CES price index exactly by `c`
(given positive wages/prices, nonnegative trade-cost factors and Armington
weights, and `sigma ≠ 1`): the system is homogeneous of degree zero/one, so
after the numeraire renormalization the equilibrium is unchanged. -/
theorem homogeneity (d : ModelData N S) (tariff iceberg : Fin N → Fin N → Fin S → ℝ)
    (c : ℝ) (w : Fin N → ℝ) (p : Fin N → Fin S → ℝ)
    (hc : 0 < c) (hw : ∀ i, 0 < w i) (hp : ∀ i k, 0 < p i k)
    (hβ : ∀ i s, d.beta i s = 1 - ∑ k, d.alpha i s k)
    (hγ : ∀ i j s, 0 ≤ d.gamma i j s)
    (htar : ∀ i j s, 0 ≤ tariff i j s) (hice : ∀ i j s, 0 ≤ iceberg i j s)
    (hσ : ∀ s, d.sigma s ≠ 1) :
    (∀ i s, unit_costs d (fun i => c * w i) (fun i k => c * p i k) i s
      = c * unit_costs d w p i s) ∧
    (∀ i j s, trade_shares d (unit_costs d (fun i => c * w i) (fun i k => c * p i k))
        tariff iceberg i j s
      = trade_shares d (unit_costs d w p) tariff iceberg i j s) ∧
    (∀ i s, ces_prices d (unit_costs d (fun i => c * w i) (fun i k => c * p i k))
        tariff iceberg i s
      = c * ces_prices d (unit_costs d w p) tariff iceberg i s) := by
  have hcs : ∀ i s, unit_costs d (fun i => c * w i) (fun i k => c * p i k) i s
      = c * unit_costs d w p i s := by
    intro i s
    unfold unit_costs
    have hlogw : Real.log (c * w i) = Real.log c + Real.log (w i) :=
      Real.log_mul (ne_of_gt hc) (ne_of_gt (hw i))
    have hlogp : ∀ k, Real.log (c * p i k) = Real.log c + Real.log (p i k) := fun k =>
      Real.log_mul (ne_of_gt hc) (ne_of_gt (hp i k))
    simp only [hlogw, hlogp]
    rw [show c * Real.exp (-Real.log (d.z i s) + d.beta i s * Real.log (w i) +
        ∑ k, d.alpha i s k * Real.log (p i k))
      = Real.exp (Real.log c + (-Real.log (d.z i s) + d.beta i s * Real.log (w i) +
          ∑ k, d.alpha i s k * Real.log (p i k))) by
        rw [Real.exp_add (Real.log c), Real.exp_log hc]]
    congr 1
    have hsum : ∑ k, d.alpha i s k * (Real.log c + Real.log (p i k))
        = (∑ k, d.alpha i s k) * Real.log c + ∑ k, d.alpha i s k * Real.log (p i k) := by
      rw [Finset.sum_mul, ← Finset.sum_add_distrib]
      exact Finset.sum_congr rfl fun k _ => by ring
    rw [hsum]
    linear_combination Real.log c * hβ i s
  have hfun : unit_costs d (fun i => c * w i) (fun i k => c * p i k)
      = fun j s => c * unit_costs d w p j s :=
    funext fun j => funext fun s => hcs j s
  have hcostnn : ∀ j s, 0 ≤ unit_costs d w p j s := fun j s =>
    (unit_costs_pos d w p j s).le
  refine ⟨hcs, fun i j s => ?_, fun i s => ?_⟩
  · rw [hfun]
    have hds := ces_denom_scale d tariff iceberg c hc (unit_costs d w p) hcostnn htar hice i s
    have hts := ces_term_scale d tariff iceberg c hc (unit_costs d w p) hcostnn htar hice i j s
    have hcp : 0 < c ^ (1 - d.sigma s) := Real.rpow_pos_of_pos hc _
    unfold trade_shares
    rw [hds, hts]
    by_cases hd : 0 < ces_denom d (unit_costs d w p) tariff iceberg i s
    · rw [if_pos (mul_pos hcp hd), if_pos hd,
        mul_div_mul_left _ _ (ne_of_gt hcp)]
    · rw [if_neg (fun hpos => hd ((mul_pos_iff_of_pos_left hcp).mp hpos)), if_neg hd]
  · rw [hfun]
    have hds := ces_denom_scale d tariff iceberg c hc (unit_costs d w p) hcostnn htar hice i s
    have hdnn := ces_denom_nonneg d tariff iceberg (unit_costs d w p) hγ hcostnn htar hice i s
    have hcp : 0 < c ^ (1 - d.sigma s) := Real.rpow_pos_of_pos hc _
    unfold ces_prices
    rw [hds, Real.mul_rpow hcp.le hdnn]
    have he : (1 : ℝ) - d.sigma s ≠ 0 := sub_ne_zero.mpr (Ne.symm (hσ s))
    have hcc : (c ^ (1 - d.sigma s)) ^ (1 / (1 - d.sigma s)) = c := by
      rw [← Real.rpow_mul hc.le, mul_one_div_cancel he, Real.rpow_one]
    rw [hcc]

theorem homogeneity_witness :
    (0 < (2 : ℝ) ∧ (∀ i : Fin 1, (0 : ℝ) < 1) ∧ dOne.sigma 0 ≠ 1) ∧
    unit_costs dOne (fun i => 2 * (fun _ => (1 : ℝ)) i)
        (fun i k => 2 * (fun _ _ => (1 : ℝ)) i k) 0 0
      = 2 * unit_costs dOne (fun _ => 1) (fun _ _ => 1) 0 0 ∧
    trade_shares dOne (unit_costs dOne (fun i => 2 * (fun _ => (1 : ℝ)) i)
        (fun i k => 2 * (fun _ _ => (1 : ℝ)) i k)) (fun _ _ _ => 1) (fun _ _ _ => 1) 0 0 0
      = trade_shares dOne (unit_costs dOne (fun _ => 1) (fun _ _ => 1))
          (fun _ _ _ => 1) (fun _ _ _ => 1) 0 0 0 ∧
    ces_prices dOne (unit_costs dOne (fun i => 2 * (fun _ => (1 : ℝ)) i)
        (fun i k => 2 * (fun _ _ => (1 : ℝ)) i k)) (fun _ _ _ => 1) (fun _ _ _ => 1) 0 0
      = 2 * ces_prices dOne (unit_costs dOne (fun _ => 1) (fun _ _ => 1))
          (fun _ _ _ => 1) (fun _ _ _ => 1) 0 0 := by
  have h := homogeneity dOne (fun _ _ _ => 1) (fun _ _ _ => 1) 2 (fun _ => 1) (fun _ _ => 1)
    (by norm_num) (fun i => by norm_num) (fun i k => by norm_num)
    (fun i s => by simp [dOne]) (fun i j s => by simp [dOne])
    (fun i j s => by norm_num) (fun i j s => by norm_num)
    (fun s => by norm_num [dOne])
  exact ⟨⟨by norm_num, fun i => by norm_num, by norm_num [dOne]⟩,
    h.1 0 0, h.2.1 0 0 0, h.2.2 0 0⟩

/-- C9: `welfare_change` computes `(new.real_income / base.real_income - 1) * 100`
componentwise, and comparing any state with nonzero (hence, in exact real
arithmetic, finite) real income against itself gives exactly 0 everywhere. -/
theorem welfare_change_spec {N S : ℕ} :
    (∀ base new : EquilibriumResult N S, ∀ i,
      welfare_change base new i = (new.real_income i / base.real_income i - 1) * 100) ∧
    (∀ x : EquilibriumResult N S, (∀ i, x.real_income i ≠ 0) →
      ∀ i, welfare_change x x i = 0) := by
  refine ⟨fun base new i => rfl, fun x hx i => ?_⟩
  unfold welfare_change
  rw [div_self (hx i)]
  ring

theorem welfare_change_spec_witness :
    (∀ i : Fin 1, eqOne.real_income i ≠ 0) ∧ welfare_change eqOne eqOne 0 = 0 := by
  have hx : ∀ i : Fin 1, eqOne.real_income i ≠ 0 := fun i => by
    simp [eqOne]
  exact ⟨hx, (welfare_change_spec.2 eqOne hx) 0⟩

/-- C8: the claim says loading rejects a negative implied labor share and any
sector with `sigma = 1`.  The code's only value check is
`np.any(beta < -1e-8)`: data with `sigma = 1` (and, separately, data with the
negative implied labor share `-1e-9`) pass every load-time check, so
`load_inputs` returns them without raising.  The spec (§7) requires both
rejections, so this is a defect of the code, not of the claim. -/
theorem load_validation_gap :
    (load_inputs_accepts dSigmaOne.alpha dSigmaOne.sigma ∧ dSigmaOne.sigma 0 = 1) ∧
    (load_inputs_accepts alphaNeg (fun _ => 2) ∧ implied_beta alphaNeg 0 0 < 0) := by
  refine ⟨⟨fun i s => ?_, by norm_num [dSigmaOne]⟩, ⟨fun i s => ?_, ?_⟩⟩
  · simp only [implied_beta, dSigmaOne]
    norm_num
  · simp only [implied_beta, alphaNeg]
    norm_num
  · simp only [implied_beta, alphaNeg]
    norm_num

theorem ga_sort_perm (f : α → ℝ) (pop : List α) : List.Perm (ga_sort f pop) pop :=
  List.perm_insertionSort _ _

theorem ga_sort_sorted (f : α → ℝ) (pop : List α) :
    List.Sorted (score_ge f) (ga_sort f pop) :=
  List.sorted_insertionSort _ _

/-- With at least one elite retained, some member of the next generation has
fitness at least that of every member of the current population. -/
theorem exists_elite_best (f : α → ℝ) (eliteN : ℕ) (hE : 1 ≤ eliteN)
    (children pop : List α) (hpop : pop ≠ []) :
    ∃ m ∈ ga_step f eliteN children pop, ∀ x ∈ pop, f x ≤ f m := by
  have hperm := ga_sort_perm f pop
  have hsne : ga_sort f pop ≠ [] := by
    intro hnil
    apply hpop
    have h2 := (ga_sort_perm f pop).symm
    rw [hnil] at h2
    exact h2.eq_nil
  obtain ⟨m, rest, hcons⟩ := List.exists_cons_of_ne_nil hsne
  refine ⟨m, ?_, ?_⟩
  · apply List.mem_append_left
    rw [hcons]
    obtain ⟨k, hk⟩ := Nat.exists_eq_add_of_le hE
    rw [hk, Nat.add_comm 1 k, List.take_succ_cons]
    exact List.mem_cons_self _ _
  · intro x hx
    have hxs : x ∈ ga_sort f pop := hperm.mem_iff.mpr hx
    rw [hcons] at hxs
    rcases List.mem_cons.mp hxs with heq | hmem
    · rw [heq]
    · have hsorted := ga_sort_sorted f pop
      rw [hcons] at hsorted
      exact List.rel_of_sorted_cons hsorted x hmem

theorem ga_pop_ne_nil (f : α → ℝ) (eliteN : ℕ) (hE : 1 ≤ eliteN)
    (children : ℕ → List α) (initPop : List α) (hpop : initPop ≠ []) :
    ∀ g, ga_pop f eliteN children initPop g ≠ [] := by
  intro g
  induction g with
  | zero => exact hpop
  | succ n ih =>
    obtain ⟨m, hm, _⟩ := exists_elite_best f eliteN hE (children n)
      (ga_pop f eliteN children initPop n) ih
    exact List.ne_nil_of_mem hm

theorem ga_best_propagates (f : α → ℝ) (eliteN : ℕ) (hE : 1 ≤ eliteN)
    (children : ℕ → List α) (initPop : List α) (hpop : initPop ≠ []) (G : ℕ) :
    ∀ g ≤ G, ∀ x ∈ ga_pop f eliteN children initPop g,
      ∃ y ∈ ga_pop f eliteN children initPop G, f x ≤ f y := by
  induction G with
  | zero =>
    intro g hg x hx
    have hg0 : g = 0 := by omega
    subst hg0
    exact ⟨x, hx, le_refl _⟩
  | succ n ih =>
    intro g hg x hx
    by_cases hgn : g ≤ n
    · obtain ⟨y, hy, hxy⟩ := ih g hgn x hx
      obtain ⟨m, hm, hym⟩ := exists_elite_best f eliteN hE (children n)
        (ga_pop f eliteN children initPop n)
        (ga_pop_ne_nil f eliteN hE children initPop hpop n)
      exact ⟨m, hm, le_trans hxy (hym y hy)⟩
    · have hgn1 : g = n + 1 := by omega
      subst hgn1
      exact ⟨x, hx, le_refl _⟩

/-- C7: for every deterministic objective and every outcome of the stochastic
choices (initial population and per-generation offspring), `genetic_optimize`
returns a candidate whose fitness is the best found across the full run: the
`max(1, ...)` elite count keeps the best individual of each generation alive
into the next, so the final `argmax` attains the global best even though the
source evaluates only the final population. -/
theorem genetic_optimize_global_best (f : α → ℝ) (population : ℕ) (eliteShare : ℝ)
    (children : ℕ → List α) (initPop : List α) (generations : ℕ)
    (hpop : initPop ≠ []) :
    ∃ b, genetic_optimize f population eliteShare children initPop generations
        = some (b, f b) ∧
      ∀ g ≤ generations,
        ∀ x ∈ ga_pop f (elite_count eliteShare population) children initPop g,
          f x ≤ f b := by
  have hE : 1 ≤ elite_count eliteShare population := le_max_left _ _
  have hfin : ga_pop f (elite_count eliteShare population) children initPop generations
      ≠ [] :=
    ga_pop_ne_nil f _ hE children initPop hpop generations
  obtain ⟨b, hb⟩ : ∃ b, List.argmax f
      (ga_pop f (elite_count eliteShare population) children initPop generations)
        = some b := by
    cases harg : List.argmax f
        (ga_pop f (elite_count eliteShare population) children initPop generations) with
    | none => exact absurd (List.argmax_eq_none.mp harg) hfin
    | some b => exact ⟨b, rfl⟩
  refine ⟨b, ?_, ?_⟩
  · unfold genetic_optimize
    rw [hb]
    rfl
  · intro g hg x hx
    obtain ⟨y, hy, hxy⟩ := ga_best_propagates f _ hE children initPop hpop
      generations g hg x hx
    exact le_trans hxy (List.le_of_mem_argmax hy hb)

theorem genetic_optimize_global_best_witness :
    ([(5 : ℝ)] ≠ []) ∧
    ∃ b, genetic_optimize (fun x : ℝ => x) 1 0.1 (fun _ => []) [(5 : ℝ)] 0
        = some (b, b) ∧
      ∀ g ≤ 0, ∀ x ∈ ga_pop (fun x : ℝ => x) (elite_count 0.1 1) (fun _ => [])
          [(5 : ℝ)] g, x ≤ b := by
  refine ⟨by simp, ?_⟩
  exact genetic_optimize_global_best (fun x : ℝ => x) 1 0.1 (fun _ => []) [(5 : ℝ)] 0
    (by simp)

end

end TradeModel
